import Mathlib

/-!
Verification development for the cquant repository.

The definitions below are shallow embeddings of the Python sources:
  * `Backtest`  embeds `backtest/backtester.py` (`VectorBacktester.run`),
  * `Leverage`  embeds `core/leverage.py` (`choose_leverage`, `TIERS`),
  * `Risk`      embeds `live/risk.py` (`get_risk_frac`) and `config.py`
    (`RISK_THRESHOLDS`),
  * `Metrics`   embeds `backtest/metrics.py`,
  * `Selector`  embeds `core/pair_selector.py` (`DynamicUCBSelector`).

Machine floats are modelled by exact rationals; `float('inf')` bounds are
modelled with `WithTop ℚ`; transcendental kernels (`math.sqrt`, `math.log`,
pandas `std`) are abstracted as function parameters; code paths that raise a
Python exception are modelled by `Option`-valued results (`none` = raise).
-/

namespace Backtest

/-- Trade side as used by the policy decision and the position dict
(`'long'` / `'short'` / `'flat'`). -/
inductive Side where
  | long
  | short
  | flat
deriving DecidableEq

/-- The columns of one row of the backtest DataFrame that
`VectorBacktester.run` actually reads: the close `c` and the `atr`. -/
structure Bar where
  c : ℚ
  atr : ℚ
deriving DecidableEq

/-- Result of `policy.decide(feat_row, prob_state)`: a side and a size
fraction. -/
structure Decision where
  side : Side
  size : ℚ
deriving DecidableEq

/-- The `position` dict of `VectorBacktester.run`. -/
structure Pos where
  side : Side
  entry_price : ℚ
  qty : ℚ
  sl : ℚ
  tp : ℚ
  entry_idx : ℕ
deriving DecidableEq

/-- One record of the trade log produced by `VectorBacktester.run`
(`entry_time` / `exit_time` are the positional indices that
`reset_index(drop=True)` gives the rows). -/
structure Trade where
  entry_time : ℕ
  exit_time : ℕ
  side : Side
  entry_price : ℚ
  exit_price : ℚ
  qty : ℚ
  pnl : ℚ
  balance_after : ℚ
deriving DecidableEq

/-- The Python local-variable state carried across iterations of the main
loop of `VectorBacktester.run`.  Besides `balance`, `position` and the
`trade_log`, the locals `decision`, `row`, `i` and the entry variables
`(sl, tp, qty)` survive the loop in Python scoping, and the statement
`position = {...}` that sits *after* the loop reads them, so the embedding
tracks whether each of them has been bound (`none` = still unbound,
reading it raises `UnboundLocalError`). -/
structure LoopSt where
  balance : ℚ
  position : Option Pos
  log : List Trade
  lastDec : Option Decision
  lastRow : Option Bar
  lastIdx : Option ℕ
  entryVars : Option (ℚ × ℚ × ℚ)
deriving DecidableEq

/-- The stop/take test of the position-management branch: for a long
position, exit at `sl` if the next close is `≤ sl`, else at `tp` if it is
`≥ tp`; mirrored for short. -/
def exitCheck (pos : Pos) (priceNext : ℚ) : Option ℚ :=
  if pos.side = Side.long then
    if priceNext ≤ pos.sl then some pos.sl
    else if priceNext ≥ pos.tp then some pos.tp
    else none
  else
    if priceNext ≥ pos.sl then some pos.sl
    else if priceNext ≤ pos.tp then some pos.tp
    else none

/-- The PnL sign `(1 if side=='long' else -1)`. -/
def sideSign (s : Side) : ℚ := if s = Side.long then 1 else -1

/-- One iteration of the `for i in range(len(self.df) - 1)` loop of
`VectorBacktester.run`, for index `i` with `row = df.iloc[i]` and
`nextRow = df.iloc[i+1]`.  Note that, exactly as in the source, no
branch of the loop body ever assigns a (non-`none`) position: the
`position = {...}` statement of the source is indented at loop level and
therefore belongs to `finalize` below, not to this loop body. -/
def stepBar (slAtr tpAtr : ℚ) (policy : ℕ → Decision) (st : LoopSt)
    (i : ℕ) (row nextRow : Bar) : LoopSt :=
  let priceNext := nextRow.c
  let st1 := { st with lastRow := some row, lastIdx := some i }
  match st1.position with
  | some pos =>
    match exitCheck pos priceNext with
    | some exitPrice =>
      let pnl := (exitPrice - pos.entry_price) * pos.qty * sideSign pos.side
      let bal := st1.balance + pnl
      { st1 with
          balance := bal,
          position := none,
          log := st1.log ++ [{ entry_time := pos.entry_idx, exit_time := i + 1,
                               side := pos.side, entry_price := pos.entry_price,
                               exit_price := exitPrice, qty := pos.qty,
                               pnl := pnl, balance_after := bal }] }
    | none => st1
  | none =>
    let d := policy i
    let st2 := { st1 with lastDec := some d }
    if d.side ≠ Side.flat then
      let stopDist := slAtr * row.atr
      let takeDist := tpAtr * row.atr
      let sl := if d.side = Side.long then row.c - stopDist else row.c + stopDist
      let tp := if d.side = Side.long then row.c + takeDist else row.c - takeDist
      let qty := st2.balance * d.size / stopDist
      { st2 with entryVars := some (sl, tp, qty) }
    else st2

/-- The main loop of `VectorBacktester.run`: iterate `stepBar` over the
consecutive bar pairs `(df.iloc[i], df.iloc[i+1])`, `i = 0 .. len-2`. -/
def runLoop (slAtr tpAtr : ℚ) (policy : ℕ → Decision) :
    ℕ → List Bar → LoopSt → LoopSt
  | i, row :: nextRow :: rest, st =>
    runLoop slAtr tpAtr policy (i + 1) (nextRow :: rest)
      (stepBar slAtr tpAtr policy st i row nextRow)
  | _, _, st => st

/-- The stray `position = {...}` statement that the source places *after*
the loop (at loop indentation level, outside the `if decision['side'] !=
'flat'` block).  It builds a position dict from the surviving locals
`decision`, `row`, `qty`, `sl`, `tp`, `i`; if any of them was never bound,
Python raises (`none`). -/
def buildPosition (st : LoopSt) : Option Pos :=
  match st.lastDec, st.lastRow, st.lastIdx, st.entryVars with
  | some d, some row, some i, some (sl, tp, qty) =>
    some { side := d.side, entry_price := row.c, qty := qty, sl := sl,
           tp := tp, entry_idx := i }
  | _, _, _, _ => none

/-- The terminal block of `VectorBacktester.run`: close the open position
at the final bar's close (`df.iloc[-1]['c']`), with no stop/take check,
and append the trade. -/
def closeOut (bars : List Bar) (st : LoopSt) (pos : Pos) :
    Option (List Trade × ℚ) :=
  match bars.getLast? with
  | some lastRow =>
    let pnl := (lastRow.c - pos.entry_price) * pos.qty * sideSign pos.side
    let bal := st.balance + pnl
    some (st.log ++ [{ entry_time := pos.entry_idx,
                       exit_time := bars.length - 1, side := pos.side,
                       entry_price := pos.entry_price,
                       exit_price := lastRow.c, qty := pos.qty,
                       pnl := pnl, balance_after := bal }], bal)
  | none => none

/-- Initial local-variable state of `VectorBacktester.run`. -/
def initSt (initialBalance : ℚ) : LoopSt :=
  { balance := initialBalance, position := none, log := [], lastDec := none,
    lastRow := none, lastIdx := none, entryVars := none }

/-- `VectorBacktester.run`: the main loop, then the stray position
assignment, then the terminal close.  `none` models a raised exception
(`UnboundLocalError` from the stray assignment when a needed local was
never bound). -/
def run (bars : List Bar) (policy : ℕ → Decision)
    (slAtr tpAtr initialBalance : ℚ) : Option (List Trade × ℚ) :=
  let st := runLoop slAtr tpAtr policy 0 bars (initSt initialBalance)
  match buildPosition st with
  | some pos => closeOut bars st pos
  | none => none

/-- The balance-chaining invariant of a trade log: each trade's
`balance_after` is the previous `balance_after` (seeded with the initial
equity) plus its `pnl`. -/
def chainOk : ℚ → List Trade → Bool
  | _, [] => true
  | prev, t :: ts => (decide (t.balance_after = prev + t.pnl)) && chainOk t.balance_after ts

/-- The example policy used for concrete runs: long with size 0.1 on bar 0,
flat afterwards. -/
def policyLongThenFlat : ℕ → Decision
  | 0 => { side := Side.long, size := 1/10 }
  | _ => { side := Side.flat, size := 0 }

/-- The example policy used for concrete runs: always long with size 0.1. -/
def policyAlwaysLong : ℕ → Decision :=
  fun _ => { side := Side.long, size := 1/10 }

end Backtest

/-- An upper bound that is either a finite rational or `float('inf')`. -/
inductive UBound where
  | fin (q : ℚ)
  | inf
deriving DecidableEq

/-- The strict comparison `b < bound` against a possibly-infinite upper
bound (every rational is below `float('inf')`). -/
def UBound.ltB (b : ℚ) : UBound → Bool
  | UBound.fin c => decide (b < c)
  | UBound.inf => true

namespace Leverage

/-- The margin mode of a leverage tier (`'cross_margin'` / `'isolated'`). -/
inductive MarginMode where
  | cross_margin
  | isolated
deriving DecidableEq

/-- `LeverageRule`: a leverage tier keyed on account equity; `max_cap` is
exclusive and may be `float('inf')`. -/
structure LeverageRule where
  mode : MarginMode
  min_cap : ℚ
  max_cap : UBound
  max_leverage : ℤ
deriving DecidableEq

/-- The `TIERS` leverage configuration of `core/leverage.py`. -/
def TIERS : List LeverageRule :=
  [{ mode := MarginMode.cross_margin, min_cap := 0, max_cap := UBound.fin 200, max_leverage := 5 },
   { mode := MarginMode.isolated, min_cap := 200, max_cap := UBound.fin 2000, max_leverage := 25 },
   { mode := MarginMode.isolated, min_cap := 2000, max_cap := UBound.inf, max_leverage := 10 }]

/-- Python `round()`: round half to even. -/
def pyRound (q : ℚ) : ℤ :=
  let f := ⌊q⌋
  let r := q - f
  if r < 1/2 then f
  else if 1/2 < r then f + 1
  else if f % 2 = 0 then f else f + 1

/-- `next(t for t in TIERS if t.min_cap <= balance < t.max_cap)`;
`none` models the `StopIteration` raised when no tier matches. -/
def tierFor (balance : ℚ) : Option LeverageRule :=
  TIERS.find? (fun t => decide (t.min_cap ≤ balance) && UBound.ltB balance t.max_cap)

/-- `choose_leverage` of `core/leverage.py`.  The optional
`exchange_bracket` dict is modelled by its only used field `maxLeverage`;
the float fudge constant `1e-9` by `1/10^9`. -/
def choose_leverage (balance risk_frac stop_usd min_notional : ℚ)
    (exchange_bracket : Option ℤ) : Option (ℤ × ℚ) :=
  let target_risk := balance * risk_frac
  let lev_needed := (min_notional * stop_usd) / max (1 / 10 ^ 9) target_risk
  match tierFor balance with
  | none => none
  | some tier =>
    let lev0 := max 1 (min (pyRound lev_needed) tier.max_leverage)
    let lev : ℤ := match exchange_bracket with
      | some m => min lev0 m
      | none => lev0
    let qty_usd := if 0 < stop_usd then (target_risk * (lev : ℚ)) / stop_usd else 0
    some (lev, qty_usd)

end Leverage

namespace Risk

/-- `RISK_THRESHOLDS` of `config.py` (with its default environment): a
list of `(equity_upper_bound, risk_fraction)` pairs, the last bound being
`float('inf')`. -/
def RISK_THRESHOLDS : List (UBound × ℚ) :=
  [(UBound.fin 1000, 2/100), (UBound.fin 5000, 15/1000), (UBound.inf, 1/100)]

/-- `get_risk_frac` of `live/risk.py`: scan the thresholds in order and
return the fraction of the first tier whose (exclusive) upper bound
exceeds the balance; the trailing `return RISK_THRESHOLDS[-1][1]`
fallback is unreachable because the last bound is infinite. -/
def get_risk_frac (balance_usdt : ℚ) : ℚ :=
  match RISK_THRESHOLDS.find? (fun bf => UBound.ltB balance_usdt bf.1) with
  | some bf => bf.2
  | none => ((RISK_THRESHOLDS.getLast?).map Prod.snd).getD 0

end Risk

namespace Metrics

/-- A float that is either NaN or an actual (rational-modelled) number;
`np.nan` sentinels are `Val.nan`. -/
inductive Val where
  | nan
  | num (q : ℚ)
deriving DecidableEq

/-- Arithmetic mean, as `pandas`/`numpy` compute it on a nonempty series. -/
def pyMean (xs : List ℚ) : ℚ := xs.sum / xs.length

/-- `compute_trade_returns` of `backtest/metrics.py`: per-trade returns
`(balance_after - balance_before) / balance_before`, where
`balance_before` is the `balance_after` column shifted by one and seeded
with `initial_balance`.  On an empty log, numpy broadcasting of the
shapes `(0,)` and `(1,)` yields an empty result, which `zipWith`
reproduces. -/
def compute_trade_returns (trades : List Backtest.Trade) (initial_balance : ℚ) : List ℚ :=
  let ba := trades.map Backtest.Trade.balance_after
  let balance_before := initial_balance :: ba.dropLast
  List.zipWith (fun a b => (a - b) / b) ba balance_before

/-- `sharpe_ratio` of `backtest/metrics.py`, abstracted over the pandas
sample standard deviation `stdFn` (which is NaN on series shorter than 2)
and `np.sqrt` (`sqrtFn`).  Returns NaN when the std is 0 or there are
fewer than 2 returns. -/
def sharpe_ratio (stdFn : List ℚ → Val) (sqrtFn : ℕ → ℚ)
    (returns : List ℚ) (annualize : Bool) : Val :=
  if stdFn returns = Val.num 0 ∨ returns.length < 2 then Val.nan
  else
    match stdFn returns with
    | Val.nan => Val.nan
    | Val.num s =>
      let sr := pyMean returns / s
      Val.num (if annualize then sr * sqrtFn returns.length else sr)

/-- `np.maximum.accumulate` tail: running maxima with seed `m`. -/
def runningMax : ℚ → List ℚ → List ℚ
  | _, [] => []
  | m, x :: xs => max m x :: runningMax (max m x) xs

/-- `np.maximum.accumulate` on a list. -/
def accumMax : List ℚ → List ℚ
  | [] => []
  | x :: xs => x :: runningMax x xs

/-- `max_drawdown` of `backtest/metrics.py`: prepend the initial balance
to the equity curve, take running peaks, and return the minimum of
`(balance - peak) / peak` (the curve is nonempty, so `min` exists; the
`getD` default is unreachable). -/
def max_drawdown (trades : List Backtest.Trade) (initial_balance : ℚ) : ℚ :=
  let balances := initial_balance :: trades.map Backtest.Trade.balance_after
  let peaks := accumMax balances
  ((List.zipWith (fun b p => (b - p) / p) balances peaks).min?).getD 0

/-- `win_rate` of `backtest/metrics.py`: NaN on an empty log, else the
fraction of trades with positive PnL. -/
def win_rate (trades : List Backtest.Trade) : Val :=
  if trades.length = 0 then Val.nan
  else Val.num (((trades.filter (fun t => decide (0 < t.pnl))).length : ℚ) / (trades.length : ℚ))

/-- `expectancy` of `backtest/metrics.py`: mean of the per-trade returns,
NaN when there are none. -/
def expectancy (trades : List Backtest.Trade) (initial_balance : ℚ) : Val :=
  let returns := compute_trade_returns trades initial_balance
  if 0 < returns.length then Val.num (pyMean returns) else Val.nan

/-- The dict returned by `summary` of `backtest/metrics.py`. -/
structure Summary where
  total_trades : ℕ
  win_rate : Val
  expectancy : Val
  sharpe_ratio : Val
  max_drawdown : ℚ
deriving DecidableEq

/-- `summary` of `backtest/metrics.py`. -/
def summary (stdFn : List ℚ → Val) (sqrtFn : ℕ → ℚ)
    (trades : List Backtest.Trade) (initial_balance : ℚ) : Summary :=
  let returns := compute_trade_returns trades initial_balance
  { total_trades := trades.length,
    win_rate := win_rate trades,
    expectancy := expectancy trades initial_balance,
    sharpe_ratio := sharpe_ratio stdFn sqrtFn returns true,
    max_drawdown := max_drawdown trades initial_balance }

end Metrics

namespace Selector

/-- One bandit arm of `DynamicUCBSelector.stats`: the per-pair sample
count `N` and cumulative reward. -/
structure Arm where
  N : ℕ
  reward : ℚ
deriving DecidableEq

/-- The mutable state of a `DynamicUCBSelector` (symbols abstracted to an
arbitrary type `α` with decidable equality; the Python code uses strings).
`stats` models the `defaultdict` as an insertion-ordered association list
with unique keys. -/
structure SelState (α : Type) where
  k : ℕ
  static : List α
  N_total : ℕ
  stats : List (α × Arm)

/-- A freshly constructed `DynamicUCBSelector(k, static_pairs, ...)`. -/
def freshState {α : Type} (k : ℕ) (static : List α) : SelState α :=
  { k := k, static := static, N_total := 0, stats := [] }

/-- Reading `self.stats[p]` as a value: the stored arm, or the
`defaultdict` default `{'N': 0, 'reward': 0.0}`. -/
def getArm {α : Type} [DecidableEq α] (stats : List (α × Arm)) (p : α) : Arm :=
  ((stats.find? (fun e => decide (e.1 = p))).map Prod.snd).getD { N := 0, reward := 0 }

/-- The side effect of reading `self.stats[p]` on a `defaultdict`: insert
the default entry if the key is absent (new dict keys are appended in
insertion order). -/
def ensureArm {α : Type} [DecidableEq α] (stats : List (α × Arm)) (p : α) : List (α × Arm) :=
  if (stats.find? (fun e => decide (e.1 = p))).isSome then stats
  else stats ++ [(p, { N := 0, reward := 0 })]

/-- `DynamicUCBSelector.update_reward`: bump the pair's count and
cumulative reward (creating the arm if absent) and bump `N_total`. -/
def update_reward {α : Type} [DecidableEq α] (st : SelState α) (pair : α) (sharpe : ℚ) :
    SelState α :=
  let stats1 := ensureArm st.stats pair
  let stats2 := stats1.map (fun e =>
    if e.1 = pair then (e.1, Arm.mk (e.2.N + 1) (e.2.reward + sharpe)) else e)
  { st with stats := stats2, N_total := st.N_total + 1 }

/-- The key list of the Python dict `scores` built by iterating over
`universe`: first occurrences, in order. -/
def pyDictKeys {α : Type} [DecidableEq α] (univ : List α) : List α :=
  univ.foldl (fun acc p => if p ∈ acc then acc else acc ++ [p]) []

/-- The UCB score of one arm: `float('inf')` (i.e. `⊤`) when the arm is
unsampled, else `reward/N + sqrt(2 * log(N_total) / N)` with `math.sqrt`
and `math.log` abstracted as `sqrtFn`/`logFn`. -/
def ucbScore (sqrtFn logFn : ℚ → ℚ) (nTotal : ℕ) (arm : Arm) : WithTop ℚ :=
  if arm.N = 0 then ⊤
  else ((arm.reward / (arm.N : ℚ) + sqrtFn (2 * logFn (nTotal : ℚ) / (arm.N : ℚ)) : ℚ) : WithTop ℚ)

/-- The comparator realising `sorted(scores, key=scores.get,
reverse=True)`: stable descending order on the score component. -/
def scoreDesc {α : Type} (x y : α × WithTop ℚ) : Bool := decide (y.2 ≤ x.2)

/-- The `defaultdict` state of `stats` after the scoring loop of
`DynamicUCBSelector.choose` touched every universe symbol. -/
def chooseStats {α : Type} [DecidableEq α] (st : SelState α) (univ : List α) :
    List (α × Arm) :=
  univ.foldl ensureArm st.stats

/-- The scored key list of `DynamicUCBSelector.choose` (the dict
`scores`, as `(symbol, score)` pairs in dict order). -/
def chooseScored (sqrtFn logFn : ℚ → ℚ) {α : Type} [DecidableEq α]
    (st : SelState α) (univ : List α) : List (α × WithTop ℚ) :=
  (pyDictKeys univ).map
    (fun p => (p, ucbScore sqrtFn logFn st.N_total (getArm (chooseStats st univ) p)))

/-- The score-descending ranking `sorted(scores, key=scores.get,
reverse=True)` (still paired with the scores). -/
def chooseRanked (sqrtFn logFn : ℚ → ℚ) {α : Type} [DecidableEq α]
    (st : SelState α) (univ : List α) : List (α × WithTop ℚ) :=
  List.mergeSort (chooseScored sqrtFn logFn st univ) scoreDesc

/-- `DynamicUCBSelector.choose` given the fetched `universe`.
`sample` abstracts `random.sample` (`none` = `ValueError`, raised when the
requested size exceeds the population).  The result pairs the returned
symbol list `list(self.static) + topk` with the selector state as mutated
by the scoring loop; `none` models an escaped exception. -/
def choose (sqrtFn logFn : ℚ → ℚ) {α : Type} [DecidableEq α]
    (sample : List α → ℕ → Option (List α))
    (st : SelState α) (univ : List α) : Option (List α × SelState α) :=
  let topk := ((chooseRanked sqrtFn logFn st univ).map Prod.fst).take st.k
  let st1 := { st with stats := chooseStats st univ }
  match (if topk.isEmpty then sample univ st.k else some topk) with
  | some sel => some (st.static ++ sel, st1)
  | none => none

/-- A call trace against one `DynamicUCBSelector`: `update_reward` calls
and `choose` calls (the latter recorded by the universe the call scored). -/
inductive Op (α : Type) where
  | update (pair : α) (sharpe : ℚ)
  | select (univ : List α)

/-- The state effect of one call. -/
def applyOp {α : Type} [DecidableEq α] (st : SelState α) : Op α → SelState α
  | Op.update p r => update_reward st p r
  | Op.select u => { st with stats := chooseStats st u }

/-- The state after a finite sequence of calls. -/
def applyOps {α : Type} [DecidableEq α] (st : SelState α) (ops : List (Op α)) : SelState α :=
  ops.foldl applyOp st

/-- Total sample count held in the arms. -/
def sumN {α : Type} (stats : List (α × Arm)) : ℕ :=
  (stats.map (fun e => e.2.N)).sum

end Selector

/-! ## Theorems -/

namespace Backtest

/-- Helper: when no position is open, one loop iteration leaves the
position (`none`), the trade log and the balance untouched. -/
theorem stepBar_of_position_none (slAtr tpAtr : ℚ) (policy : ℕ → Decision)
    (st : LoopSt) (i : ℕ) (row nextRow : Bar) (h : st.position = none) :
    (stepBar slAtr tpAtr policy st i row nextRow).position = none ∧
    (stepBar slAtr tpAtr policy st i row nextRow).log = st.log ∧
    (stepBar slAtr tpAtr policy st i row nextRow).balance = st.balance := by
  simp [stepBar, h]
  split <;> simp

/-- Helper: the main loop of `VectorBacktester.run` can never open a
position (the `position = {...}` assignment sits outside the loop), so it
also never logs a trade nor changes the balance. -/
theorem runLoop_of_position_none (slAtr tpAtr : ℚ) (policy : ℕ → Decision) :
    ∀ (bars : List Bar) (i : ℕ) (st : LoopSt), st.position = none →
    (runLoop slAtr tpAtr policy i bars st).position = none ∧
    (runLoop slAtr tpAtr policy i bars st).log = st.log ∧
    (runLoop slAtr tpAtr policy i bars st).balance = st.balance
  | [], _, st, h => by simp [runLoop, h]
  | [b], _, st, h => by simp [runLoop, h]
  | b1 :: b2 :: rest, i, st, h => by
    have hs := stepBar_of_position_none slAtr tpAtr policy st i b1 b2 h
    have ih := runLoop_of_position_none slAtr tpAtr policy (b2 :: rest) (i + 1)
      (stepBar slAtr tpAtr policy st i b1 b2) hs.1
    refine ⟨ih.1, ?_, ?_⟩
    · rw [show runLoop slAtr tpAtr policy i (b1 :: b2 :: rest) st =
        runLoop slAtr tpAtr policy (i + 1) (b2 :: rest) (stepBar slAtr tpAtr policy st i b1 b2) from rfl]
      rw [ih.2.1, hs.2.1]
    · rw [show runLoop slAtr tpAtr policy i (b1 :: b2 :: rest) st =
        runLoop slAtr tpAtr policy (i + 1) (b2 :: rest) (stepBar slAtr tpAtr policy st i b1 b2) from rfl]
      rw [ih.2.2, hs.2.2]

/-- C1: evaluation of `VectorBacktester.run` at a failing input.  On the
bars `[(c=100, atr=10), (c=200, atr=10), (c=200, atr=10)]` with a policy
that goes long (size 0.1) on bar 0 and is flat afterwards
(`sl_atr = 1.2`, `tp_atr = 2.4`, initial balance 1), the claim says a
long position is opened on bar 0 (entry 100, stop 88, take 124,
qty 1/120) and that flat decisions create no position; the code instead
opens nothing during the loop and fabricates a single side-`flat` trade
from the stale locals after the loop.  Moreover, on an all-flat input the
claim says the simulator just remains Flat, but the code raises
`UnboundLocalError` (modelled `none`). -/
theorem run_entry_bug_eval :
    run [⟨100,10⟩, ⟨200,10⟩, ⟨200,10⟩] policyLongThenFlat (6/5) (12/5) 1 =
      some ([⟨1, 2, Side.flat, 200, 200, 1/120, 0, 1⟩], 1) ∧
    run [⟨100,10⟩, ⟨80,10⟩] (fun _ => ⟨Side.flat, 0⟩) (6/5) (12/5) 1 = none := by
  constructor
  · simp [run, runLoop, stepBar, initSt, buildPosition, closeOut, policyLongThenFlat, sideSign]
    norm_num
  · simp [run, runLoop, stepBar, initSt, buildPosition]

/-- C2: for every bar sequence, decision function and initial equity,
whenever `VectorBacktester.run` returns a trade log and final balance,
the log satisfies `balance_after[n] = balance_after[n-1] + pnl[n]` (the
predecessor of the first trade seeded by the initial equity), and the
final balance is the initial balance plus the sum of all logged PnLs. -/
theorem run_balance_chain (bars : List Bar) (policy : ℕ → Decision)
    (slAtr tpAtr ib : ℚ) (log : List Trade) (fb : ℚ)
    (h : run bars policy slAtr tpAtr ib = some (log, fb)) :
    chainOk ib log = true ∧ fb = ib + (log.map Trade.pnl).sum := by
  simp only [run] at h
  obtain ⟨h1, h2, h3⟩ := runLoop_of_position_none slAtr tpAtr policy bars 0 (initSt ib) rfl
  set st := runLoop slAtr tpAtr policy 0 bars (initSt ib) with hst
  cases hb : buildPosition st with
  | none => rw [hb] at h; simp at h
  | some pos =>
    rw [hb] at h
    unfold closeOut at h
    cases hl : bars.getLast? with
    | none => rw [hl] at h; simp at h
    | some lastRow =>
      rw [hl] at h
      simp only [Option.some.injEq, Prod.mk.injEq] at h
      obtain ⟨hlog, hfb⟩ := h
      subst hlog
      rw [h2] at *
      simp [chainOk, initSt] at *
      constructor
      · simp [← hfb, h3, initSt]
      · simp [← hfb, h3, initSt]

/-- C2 witness: a concrete successful run (two bars, always-long policy)
on which the chaining invariant and the balance equation are checked. -/
theorem run_balance_chain_witness :
    run [⟨100,10⟩, ⟨100,10⟩] policyAlwaysLong (6/5) (12/5) 1 =
      some ([⟨0, 1, Side.long, 100, 100, 1/120, 0, 1⟩], 1) ∧
    chainOk 1 [⟨0, 1, Side.long, 100, 100, 1/120, 0, 1⟩] = true ∧
    (1 : ℚ) = 1 + (([⟨0, 1, Side.long, 100, 100, 1/120, 0, 1⟩] : List Trade).map Trade.pnl).sum := by
  have h : run [⟨100,10⟩, ⟨100,10⟩] policyAlwaysLong (6/5) (12/5) 1 =
      some ([⟨0, 1, Side.long, 100, 100, 1/120, 0, 1⟩], 1) := by
    simp [run, runLoop, stepBar, initSt, buildPosition, closeOut, policyAlwaysLong, sideSign]
    norm_num
  have h2 := run_balance_chain _ _ _ _ _ _ _ h
  exact ⟨h, h2.1, h2.2⟩

/-- C3: evaluation of `VectorBacktester.run` at a failing input.  On the
bars `[(c=100, atr=10), (c=80, atr=10), (c=80, atr=10)]` with a policy
that goes long (size 0.1) on bar 0, the claim says the open long position
(stop 88) exits at the stop on bar 1 (close 80 ≤ 88) with
PnL `(88-100) * 1/120 = -1/10`; but the loop never holds a position, so
the stop/take test is never reached, and the code returns a single
side-`flat` trade with PnL 0 and an unchanged balance. -/
theorem run_exit_bug_eval :
    run [⟨100,10⟩, ⟨80,10⟩, ⟨80,10⟩] policyLongThenFlat (6/5) (12/5) 1 =
      some ([⟨1, 2, Side.flat, 80, 80, 1/120, 0, 1⟩], 1) := by
  simp [run, runLoop, stepBar, initSt, buildPosition, closeOut, policyLongThenFlat, sideSign]
  norm_num

/-- C4: if a position is (still) open after the last bar was processed,
`VectorBacktester.run` force-closes it at the final bar's close price —
the exit price is the last close regardless of the stop and take levels —
appends the corresponding trade to the log and adds its PnL to the
returned final balance. -/
theorem run_forced_close (bars : List Bar) (policy : ℕ → Decision)
    (slAtr tpAtr ib : ℚ) (st : LoopSt) (pos : Pos) (lastBar : Bar)
    (hst : runLoop slAtr tpAtr policy 0 bars (initSt ib) = st)
    (hpos : buildPosition st = some pos)
    (hlast : bars.getLast? = some lastBar) :
    run bars policy slAtr tpAtr ib =
      some (st.log ++ [{ entry_time := pos.entry_idx, exit_time := bars.length - 1,
                         side := pos.side, entry_price := pos.entry_price,
                         exit_price := lastBar.c, qty := pos.qty,
                         pnl := (lastBar.c - pos.entry_price) * pos.qty * sideSign pos.side,
                         balance_after := st.balance + (lastBar.c - pos.entry_price) * pos.qty * sideSign pos.side }],
            st.balance + (lastBar.c - pos.entry_price) * pos.qty * sideSign pos.side) := by
  simp only [run, hst, hpos, closeOut, hlast]

/-- C4 witness: the forced close evaluated on a concrete two-bar run with
an always-long policy. -/
theorem run_forced_close_witness :
    runLoop (6/5) (12/5) policyAlwaysLong 0 [⟨100,10⟩, ⟨100,10⟩] (initSt 1) =
      ⟨1, none, [], some ⟨Side.long, 1/10⟩, some ⟨100,10⟩, some 0, some (88, 124, 1/120)⟩ ∧
    buildPosition ⟨1, none, [], some ⟨Side.long, 1/10⟩, some ⟨100,10⟩, some 0, some (88, 124, 1/120)⟩ =
      some ⟨Side.long, 100, 1/120, 88, 124, 0⟩ ∧
    ([⟨100,10⟩, ⟨100,10⟩] : List Bar).getLast? = some ⟨100,10⟩ ∧
    run [⟨100,10⟩, ⟨100,10⟩] policyAlwaysLong (6/5) (12/5) 1 =
      some ([{ entry_time := 0, exit_time := 2 - 1, side := Side.long, entry_price := 100,
               exit_price := 100, qty := 1/120,
               pnl := ((100:ℚ) - 100) * (1/120) * sideSign Side.long,
               balance_after := 1 + ((100:ℚ) - 100) * (1/120) * sideSign Side.long }],
            1 + ((100:ℚ) - 100) * (1/120) * sideSign Side.long) := by
  have h1 : runLoop (6/5) (12/5) policyAlwaysLong 0 [⟨100,10⟩, ⟨100,10⟩] (initSt 1) =
      ⟨1, none, [], some ⟨Side.long, 1/10⟩, some ⟨100,10⟩, some 0, some (88, 124, 1/120)⟩ := by
    simp [runLoop, stepBar, initSt, policyAlwaysLong]
    norm_num
  have h2 : buildPosition ⟨1, none, [], some ⟨Side.long, 1/10⟩, some ⟨100,10⟩, some 0, some (88, 124, 1/120)⟩ =
      some ⟨Side.long, 100, 1/120, 88, 124, 0⟩ := rfl
  have h3 : ([⟨100,10⟩, ⟨100,10⟩] : List Bar).getLast? = some ⟨100,10⟩ := rfl
  exact ⟨h1, h2, h3, run_forced_close _ _ _ _ _ _ _ _ h1 h2 h3⟩

end Backtest

namespace Leverage

/-- Helper: for every nonnegative balance the tier scan succeeds, the
found tier covers the balance, and its leverage cap is at least 1. -/
theorem tierFor_total (balance : ℚ) (hb : 0 ≤ balance) :
    ∃ tier, tierFor balance = some tier ∧ tier.min_cap ≤ balance ∧
      UBound.ltB balance tier.max_cap = true ∧ (1 : ℤ) ≤ tier.max_leverage := by
  rcases lt_or_le balance 200 with h1 | h1
  · have htf : tierFor balance =
        some { mode := MarginMode.cross_margin, min_cap := 0,
               max_cap := UBound.fin 200, max_leverage := 5 } := by
      simp [tierFor, TIERS, List.find?, UBound.ltB, hb, h1]
    exact ⟨_, htf, hb, by simp [UBound.ltB, h1], by norm_num⟩
  · rcases lt_or_le balance 2000 with h2 | h2
    · have htf : tierFor balance =
          some { mode := MarginMode.isolated, min_cap := 200,
                 max_cap := UBound.fin 2000, max_leverage := 25 } := by
        simp [tierFor, TIERS, List.find?, UBound.ltB, hb, h1.not_lt, h1, h2]
      exact ⟨_, htf, h1, by simp [UBound.ltB, h2], by norm_num⟩
    · have htf : tierFor balance =
          some { mode := MarginMode.isolated, min_cap := 2000,
                 max_cap := UBound.inf, max_leverage := 10 } := by
        simp [tierFor, TIERS, List.find?, UBound.ltB, hb, h1.not_lt, h2.not_lt, h1, h2]
      exact ⟨_, htf, h2, by simp [UBound.ltB], by norm_num⟩

/-- C5 (amended): for every nonnegative balance, risk fraction, stop
distance, minimum notional and optional exchange bracket whose cap is at
least 1, `choose_leverage` picks the first tier covering the balance and
returns a leverage in `[1, tier.max_leverage]`, further capped at the
bracket's `maxLeverage` when one is supplied; the returned notional
satisfies `qty_usd * stop_usd / leverage = balance * risk_frac` whenever
`stop_usd > 0`, and `stop_usd ≤ 0` yields notional 0. -/
theorem choose_leverage_spec (balance risk_frac stop_usd min_notional : ℚ)
    (bracket : Option ℤ) (hb : 0 ≤ balance)
    (hbr : ∀ m, bracket = some m → 1 ≤ m) :
    ∃ tier lev qty,
      tierFor balance = some tier ∧
      tier.min_cap ≤ balance ∧ UBound.ltB balance tier.max_cap = true ∧
      choose_leverage balance risk_frac stop_usd min_notional bracket = some (lev, qty) ∧
      1 ≤ lev ∧ lev ≤ tier.max_leverage ∧
      (∀ m, bracket = some m → lev ≤ m) ∧
      (0 < stop_usd → qty * stop_usd / (lev : ℚ) = balance * risk_frac) ∧
      (stop_usd ≤ 0 → qty = 0) := by
  obtain ⟨tier, htf, hmin, hmax, hml⟩ := tierFor_total balance hb
  cases bracket with
  | none =>
    refine ⟨tier,
      max 1 (min (pyRound ((min_notional * stop_usd) / max (1 / 10 ^ 9) (balance * risk_frac))) tier.max_leverage),
      if 0 < stop_usd then
        (balance * risk_frac * ((max 1 (min (pyRound ((min_notional * stop_usd) / max (1 / 10 ^ 9) (balance * risk_frac))) tier.max_leverage) : ℤ) : ℚ)) / stop_usd
      else 0,
      htf, hmin, hmax, ?_, le_max_left _ _, max_le hml (min_le_right _ _), ?_, ?_, ?_⟩
    · simp only [choose_leverage, htf]
    · intro m hm; cases hm
    · intro hs
      have h1 : (1 : ℤ) ≤ max 1 (min (pyRound ((min_notional * stop_usd) / max (1 / 10 ^ 9) (balance * risk_frac))) tier.max_leverage) := le_max_left _ _
      have hq : ((max 1 (min (pyRound ((min_notional * stop_usd) / max (1 / 10 ^ 9) (balance * risk_frac))) tier.max_leverage) : ℤ) : ℚ) ≠ 0 :=
        Int.cast_ne_zero.mpr (ne_of_gt (lt_of_lt_of_le Int.zero_lt_one h1))
      rw [if_pos hs]
      field_simp
    · intro hs
      rw [if_neg (not_lt.mpr hs)]
  | some m =>
    have hm1 : 1 ≤ m := hbr m rfl
    refine ⟨tier,
      min (max 1 (min (pyRound ((min_notional * stop_usd) / max (1 / 10 ^ 9) (balance * risk_frac))) tier.max_leverage)) m,
      if 0 < stop_usd then
        (balance * risk_frac * ((min (max 1 (min (pyRound ((min_notional * stop_usd) / max (1 / 10 ^ 9) (balance * risk_frac))) tier.max_leverage)) m : ℤ) : ℚ)) / stop_usd
      else 0,
      htf, hmin, hmax, ?_, le_min (le_max_left _ _) hm1,
      (min_le_left _ _).trans (max_le hml (min_le_right _ _)), ?_, ?_, ?_⟩
    · simp only [choose_leverage, htf]
    · intro m2 hm2; cases hm2; exact min_le_right _ _
    · intro hs
      have h1 : (1 : ℤ) ≤ min (max 1 (min (pyRound ((min_notional * stop_usd) / max (1 / 10 ^ 9) (balance * risk_frac))) tier.max_leverage)) m := le_min (le_max_left _ _) hm1
      have hq : ((min (max 1 (min (pyRound ((min_notional * stop_usd) / max (1 / 10 ^ 9) (balance * risk_frac))) tier.max_leverage)) m : ℤ) : ℚ) ≠ 0 :=
        Int.cast_ne_zero.mpr (ne_of_gt (lt_of_lt_of_le Int.zero_lt_one h1))
      rw [if_pos hs]
      field_simp
    · intro hs
      rw [if_neg (not_lt.mpr hs)]

end Leverage

namespace Leverage

/-- C5 counterexample: with balance 100, risk 1%, stop 2, min notional 5
and an exchange bracket whose `maxLeverage` is 0, `choose_leverage`
returns leverage 0, which is not in `[1, tier.max_leverage]`: the claim's
bound fails for an arbitrary supplied bracket. -/
theorem choose_leverage_bracket_counterexample :
    choose_leverage 100 (1/100) 2 5 (some 0) = some (0, 0) ∧ ¬ ((1:ℤ) ≤ 0) := by
  constructor
  · have hm : max ((1:ℚ)/10^9) (100 * (1/100)) = 1 := by rw [max_eq_right] <;> norm_num
    simp only [choose_leverage, tierFor, TIERS, List.find?, UBound.ltB, hm]
    norm_num [pyRound]
  · norm_num

/-- C5 witness: the amended statement applied at balance 100, risk 1%,
stop 2, min notional 5 and bracket cap 3. -/
theorem choose_leverage_spec_witness :
    (0:ℚ) ≤ 100 ∧ (∀ m : ℤ, (some 3 : Option ℤ) = some m → 1 ≤ m) ∧
    (∃ tier lev qty,
      tierFor 100 = some tier ∧
      tier.min_cap ≤ 100 ∧ UBound.ltB 100 tier.max_cap = true ∧
      choose_leverage 100 (1/100) 2 5 (some 3) = some (lev, qty) ∧
      1 ≤ lev ∧ lev ≤ tier.max_leverage ∧
      (∀ m, (some 3 : Option ℤ) = some m → lev ≤ m) ∧
      ((0:ℚ) < 2 → qty * 2 / (lev : ℚ) = 100 * (1/100)) ∧
      ((2:ℚ) ≤ 0 → qty = 0)) := by
  have hb : (0:ℚ) ≤ 100 := by norm_num
  have hbr : ∀ m : ℤ, (some 3 : Option ℤ) = some m → 1 ≤ m := by
    intro m hm
    cases hm
    norm_num
  exact ⟨hb, hbr, choose_leverage_spec 100 (1/100) 2 5 (some 3) hb hbr⟩

end Leverage

namespace Risk

/-- C6: `get_risk_frac` returns the fraction of the first configured tier
whose upper bound strictly exceeds the balance (upper-exclusive
boundaries scanned in ascending order; the last tier is unbounded, so the
lookup is total), and on the default tiers
`get_risk_frac 999 = 0.02`, `get_risk_frac 1000 = 0.015`,
`get_risk_frac 10000 = 0.01`. -/
theorem get_risk_frac_spec :
    (∀ b : ℚ, get_risk_frac b =
      if b < 1000 then 2/100 else if b < 5000 then 15/1000 else 1/100) ∧
    get_risk_frac 999 = 2/100 ∧ get_risk_frac 1000 = 15/1000 ∧
    get_risk_frac 10000 = 1/100 := by
  have hgen : ∀ b : ℚ, get_risk_frac b =
      if b < 1000 then 2/100 else if b < 5000 then 15/1000 else 1/100 := by
    intro b
    rcases lt_or_le b 1000 with h1 | h1
    · simp [get_risk_frac, RISK_THRESHOLDS, List.find?, UBound.ltB, h1]
    · rcases lt_or_le b 5000 with h2 | h2
      · simp [get_risk_frac, RISK_THRESHOLDS, List.find?, UBound.ltB, h1.not_lt, h1, h2]
      · simp [get_risk_frac, RISK_THRESHOLDS, List.find?, UBound.ltB, h1.not_lt, h2.not_lt, h1, h2]
  refine ⟨hgen, ?_, ?_, ?_⟩
  · rw [hgen]; norm_num
  · rw [hgen]; norm_num
  · rw [hgen]; norm_num

end Risk

namespace Metrics

/-- C9: on an empty trade log every metric of `backtest/metrics.py`
returns normally (all the embedded operations are total on the empty
log, for any standard-deviation and square-root kernels): the per-trade
return series is empty, `win_rate`, `expectancy` and `sharpe_ratio` are
the NaN sentinel, `max_drawdown` is 0, and `summary` assembles exactly
these values. -/
theorem summary_empty (stdFn : List ℚ → Val) (sqrtFn : ℕ → ℚ) (ib : ℚ) :
    compute_trade_returns [] ib = [] ∧
    win_rate [] = Val.nan ∧
    expectancy [] ib = Val.nan ∧
    sharpe_ratio stdFn sqrtFn (compute_trade_returns [] ib) true = Val.nan ∧
    max_drawdown [] ib = 0 ∧
    summary stdFn sqrtFn [] ib =
      { total_trades := 0, win_rate := Val.nan, expectancy := Val.nan,
        sharpe_ratio := Val.nan, max_drawdown := 0 } := by
  have h1 : compute_trade_returns [] ib = [] := by
    simp [compute_trade_returns]
  have h2 : win_rate [] = Val.nan := by
    simp [win_rate]
  have h3 : expectancy [] ib = Val.nan := by
    simp [expectancy, compute_trade_returns]
  have h4 : sharpe_ratio stdFn sqrtFn (compute_trade_returns [] ib) true = Val.nan := by
    simp [sharpe_ratio, h1]
  have h5 : max_drawdown [] ib = 0 := by
    simp [max_drawdown, accumMax, runningMax]
  exact ⟨h1, h2, h3, h4, h5, by simp [summary, h1, h2, h3, h5, sharpe_ratio]⟩

end Metrics

namespace Selector

variable {α : Type} [DecidableEq α]

/-- Helper: lazily inserting a default arm never changes any arm value. -/
theorem getArm_ensureArm (stats : List (α × Arm)) (p q : α) :
    getArm (ensureArm stats p) q = getArm stats q := by
  unfold ensureArm
  split
  · rfl
  · rename_i h
    unfold getArm
    rw [List.find?_append]
    cases hf : stats.find? (fun e => decide (e.1 = q)) with
    | some e => simp [hf]
    | none =>
      simp only [hf, Option.none_or]
      by_cases hpq : p = q
      · subst hpq
        simp
      · simp [List.find?, hpq]

/-- Helper: lazily inserting a default arm keeps the total sample count. -/
theorem sumN_ensureArm (stats : List (α × Arm)) (p : α) :
    sumN (ensureArm stats p) = sumN stats := by
  unfold ensureArm
  split
  · rfl
  · simp [sumN]

/-- Helper: the scoring loop of `choose` never changes any arm value. -/
theorem getArm_chooseStats (st1 : List (α × Arm)) (u : List α) (q : α) :
    getArm (u.foldl ensureArm st1) q = getArm st1 q := by
  induction u generalizing st1 with
  | nil => rfl
  | cons x xs ih =>
    rw [List.foldl_cons, ih, getArm_ensureArm]

/-- Helper: the scoring loop of `choose` keeps the total sample count. -/
theorem sumN_chooseStats (st1 : List (α × Arm)) (u : List α) :
    sumN (u.foldl ensureArm st1) = sumN st1 := by
  induction u generalizing st1 with
  | nil => rfl
  | cons x xs ih =>
    rw [List.foldl_cons, ih, sumN_ensureArm]

/-- Helper: lazy insertion keeps the stats keys distinct. -/
theorem keysNodup_ensureArm (stats : List (α × Arm)) (p : α)
    (h : (stats.map Prod.fst).Nodup) :
    ((ensureArm stats p).map Prod.fst).Nodup := by
  unfold ensureArm
  split
  · exact h
  · rename_i hf
    have hnp : p ∉ stats.map Prod.fst := by
      intro hmem
      obtain ⟨e, he, hep⟩ := List.mem_map.mp hmem
      have h2 : stats.find? (fun e => decide (e.1 = p)) = none :=
        Option.not_isSome_iff_eq_none.mp hf
      have h3 := List.find?_eq_none.mp h2 e he
      simp [hep] at h3
    simp [List.nodup_append, h, hnp]

/-- Helper: the scoring loop keeps the stats keys distinct. -/
theorem keysNodup_chooseStats (st1 : List (α × Arm)) (u : List α)
    (h : (st1.map Prod.fst).Nodup) :
    (((u.foldl ensureArm st1)).map Prod.fst).Nodup := by
  induction u generalizing st1 with
  | nil => exact h
  | cons x xs ih =>
    rw [List.foldl_cons]
    exact ih _ (keysNodup_ensureArm st1 x h)

/-- Helper: the bump of `update_reward` adds one per matching entry. -/
theorem sumN_update (stats : List (α × Arm)) (p : α) (r : ℚ) :
    sumN (stats.map (fun e => if e.1 = p then (e.1, Arm.mk (e.2.N + 1) (e.2.reward + r)) else e)) =
      sumN stats + stats.countP (fun e => decide (e.1 = p)) := by
  induction stats with
  | nil => rfl
  | cons e es ih =>
    by_cases h : e.1 = p
    · simp [sumN, List.countP_cons, h] at *
      omega
    · simp [sumN, List.countP_cons, h] at *
      omega

/-- Helper: an absent key matches no entry. -/
theorem countP_keys_zero (stats : List (α × Arm)) (p : α)
    (h : p ∉ stats.map Prod.fst) :
    stats.countP (fun e => decide (e.1 = p)) = 0 := by
  rw [List.countP_eq_zero]
  intro e he
  simp only [decide_eq_true_eq]
  intro hep
  exact h (List.mem_map.mpr ⟨e, he, hep⟩)

/-- Helper: with distinct keys, a found key matches exactly one entry. -/
theorem countP_found_one (stats : List (α × Arm)) (p : α)
    (hn : (stats.map Prod.fst).Nodup)
    (hf : (stats.find? (fun e => decide (e.1 = p))).isSome = true) :
    stats.countP (fun e => decide (e.1 = p)) = 1 := by
  induction stats with
  | nil => simp [List.find?] at hf
  | cons e es ih =>
    simp only [List.map_cons, List.nodup_cons] at hn
    by_cases h : e.1 = p
    · have hnotin : p ∉ es.map Prod.fst := h ▸ hn.1
      have h0 := countP_keys_zero es p hnotin
      simp [List.countP_cons, h, h0]
    · have hf2 : (es.find? (fun e2 => decide (e2.1 = p))).isSome = true := by
        simpa [List.find?, h] using hf
      simp [List.countP_cons, h, ih hn.2 hf2]

/-- Helper: after lazy insertion the key matches exactly one entry. -/
theorem countP_ensureArm (stats : List (α × Arm)) (p : α)
    (h : (stats.map Prod.fst).Nodup) :
    (ensureArm stats p).countP (fun e => decide (e.1 = p)) = 1 := by
  by_cases hf : (stats.find? (fun e => decide (e.1 = p))).isSome = true
  · rw [show ensureArm stats p = stats from by unfold ensureArm; simp [hf]]
    exact countP_found_one stats p h hf
  · have h2 : stats.find? (fun e => decide (e.1 = p)) = none :=
      Option.not_isSome_iff_eq_none.mp (by simpa using hf)
    rw [show ensureArm stats p = stats ++ [(p, { N := 0, reward := 0 })] from by
      unfold ensureArm; simp [h2]]
    have hnotin : p ∉ stats.map Prod.fst := by
      intro hmem
      obtain ⟨e, he, hep⟩ := List.mem_map.mp hmem
      have h3 := List.find?_eq_none.mp h2 e he
      simp [hep] at h3
    rw [List.countP_append, countP_keys_zero stats p hnotin]
    simp [List.countP_cons]

/-- Helper: `update_reward` adds exactly one sample to the arms and one to
`N_total`, keeping keys distinct. -/
theorem sumN_update_reward (st : SelState α) (p : α) (r : ℚ)
    (hn : (st.stats.map Prod.fst).Nodup) :
    sumN (update_reward st p r).stats = sumN st.stats + 1 ∧
    (update_reward st p r).N_total = st.N_total + 1 ∧
    ((update_reward st p r).stats.map Prod.fst).Nodup := by
  refine ⟨?_, rfl, ?_⟩
  · show sumN ((ensureArm st.stats p).map _) = _
    rw [sumN_update, countP_ensureArm st.stats p hn, sumN_ensureArm]
  · show (((ensureArm st.stats p).map _).map Prod.fst).Nodup
    have hkeys : (((ensureArm st.stats p).map
        (fun e => if e.1 = p then (e.1, Arm.mk (e.2.N + 1) (e.2.reward + r)) else e)).map Prod.fst) =
        ((ensureArm st.stats p).map Prod.fst) := by
      rw [List.map_map]
      congr 1
      funext e
      by_cases h : e.1 = p <;> simp [h]
    rw [hkeys]
    exact keysNodup_ensureArm st.stats p hn

end Selector

namespace Selector

variable {α : Type} [DecidableEq α]

/-- Helper: `N_total = Σ arm.N` together with key distinctness is preserved
by every `update_reward` and every `choose` state effect. -/
theorem applyOps_inv (ops : List (Op α)) : ∀ (st : SelState α),
    sumN st.stats = st.N_total → ((st.stats.map Prod.fst).Nodup) →
    sumN (applyOps st ops).stats = (applyOps st ops).N_total ∧
    (((applyOps st ops).stats.map Prod.fst).Nodup) := by
  induction ops with
  | nil => exact fun st h1 h2 => ⟨h1, h2⟩
  | cons op rest ih =>
    intro st h1 h2
    have hstep : sumN (applyOp st op).stats = (applyOp st op).N_total ∧
        (((applyOp st op).stats.map Prod.fst).Nodup) := by
      cases op with
      | update p r =>
        obtain ⟨ha, hb, hc⟩ := sumN_update_reward st p r h2
        refine ⟨?_, hc⟩
        show sumN (update_reward st p r).stats = (update_reward st p r).N_total
        rw [ha, hb, h1]
      | select u =>
        refine ⟨?_, keysNodup_chooseStats st.stats u h2⟩
        show sumN (chooseStats st u) = st.N_total
        rw [show chooseStats st u = u.foldl ensureArm st.stats from rfl, sumN_chooseStats, h1]
    exact ih (applyOp st op) hstep.1 hstep.2

/-- C10: starting from a freshly constructed `DynamicUCBSelector`, after
every finite sequence of `update_reward` and `choose` calls, `N_total`
equals the sum of the per-arm sample counts; the state effect of a
`choose` call keeps `N_total` and every arm value (count and cumulative
reward) unchanged — it only lazily creates zero-count entries — and any
successful `choose` returns exactly that state. -/
theorem selector_invariant (k : ℕ) (static : List α) (ops : List (Op α)) :
    sumN (applyOps (freshState k static) ops).stats =
      (applyOps (freshState k static) ops).N_total ∧
    (∀ (st : SelState α) (u : List α),
      (applyOp st (Op.select u)).N_total = st.N_total ∧
      ∀ p, getArm (applyOp st (Op.select u)).stats p = getArm st.stats p) ∧
    (∀ (f g : ℚ → ℚ) (sample : List α → ℕ → Option (List α)) (st : SelState α)
      (u : List α) (sel : List α) (st2 : SelState α),
      choose f g sample st u = some (sel, st2) → st2 = applyOp st (Op.select u)) := by
  refine ⟨(applyOps_inv ops (freshState k static) rfl (by simp [freshState])).1, ?_, ?_⟩
  · intro st u
    exact ⟨rfl, fun p => getArm_chooseStats st.stats u p⟩
  · intro f g sample st u sel st2 h
    have h2 : (match (if (((chooseRanked f g st u).map Prod.fst).take st.k).isEmpty = true
          then sample u st.k
          else some (((chooseRanked f g st u).map Prod.fst).take st.k)) with
        | some sel0 => some (st.static ++ sel0, { st with stats := chooseStats st u })
        | none => (none : Option (List α × SelState α))) = some (sel, st2) := h
    rcases hm : (if (((chooseRanked f g st u).map Prod.fst).take st.k).isEmpty = true
        then sample u st.k
        else some (((chooseRanked f g st u).map Prod.fst).take st.k)) with _ | sel0
    · rw [hm] at h2; simp at h2
    · rw [hm] at h2
      simp only [Option.some.injEq, Prod.mk.injEq] at h2
      exact h2.2.symm ▸ rfl

/-- C10 witness: the invariant applied to a concrete call sequence, and a
concrete successful `choose` call returning the scoring-loop state. -/
theorem selector_invariant_witness :
    sumN (applyOps (freshState 2 ([] : List ℕ)) [Op.update 0 1, Op.select [0, 1]]).stats =
      (applyOps (freshState 2 ([] : List ℕ)) [Op.update 0 1, Op.select [0, 1]]).N_total ∧
    ({ k := 2, static := [], N_total := 0, stats := [(0, ⟨0, 0⟩)] } : SelState ℕ) =
      applyOp (freshState 2 []) (Op.select [0]) := by
  have hthm := selector_invariant 2 ([] : List ℕ) [Op.update 0 1, Op.select [0, 1]]
  have heval : choose (fun _ => 0) (fun _ => 0)
      (fun pop n => if n ≤ pop.length then some (pop.take n) else none)
      (freshState 2 ([] : List ℕ)) [0] =
      some ([0], { k := 2, static := [], N_total := 0, stats := [(0, ⟨0, 0⟩)] }) := by
    simp [choose, chooseRanked, chooseScored, pyDictKeys, chooseStats, ensureArm, getArm,
      ucbScore, freshState, List.find?]
  exact ⟨hthm.1, hthm.2.2 _ _ _ _ _ _ _ heval⟩

end Selector

namespace Selector

variable {α : Type} [DecidableEq α]

/-- Helper: `choose` unfolded to its decision structure. -/
theorem choose_eq (f g : ℚ → ℚ) (sample : List α → ℕ → Option (List α))
    (st : SelState α) (u : List α) :
    choose f g sample st u =
      match (if (((chooseRanked f g st u).map Prod.fst).take st.k).isEmpty = true
        then sample u st.k
        else some (((chooseRanked f g st u).map Prod.fst).take st.k)) with
      | some sel => some (st.static ++ sel, { st with stats := chooseStats st u })
      | none => none := rfl

/-- Helper: the dict-key fold only ever extends its accumulator. -/
theorem mem_pyDictKeys_foldl (u : List α) : ∀ (acc : List α) (x : α), x ∈ acc →
    x ∈ u.foldl (fun acc p => if p ∈ acc then acc else acc ++ [p]) acc := by
  induction u with
  | nil => exact fun acc x h => h
  | cons y ys ih =>
    intro acc x h
    rw [List.foldl_cons]
    by_cases hy : y ∈ acc
    · rw [if_pos hy]; exact ih acc x h
    · rw [if_neg hy]; exact ih _ x (List.mem_append_left _ h)

/-- Helper: the score dict is empty exactly when the universe is. -/
theorem pyDictKeys_eq_nil_iff (u : List α) : pyDictKeys u = [] ↔ u = [] := by
  constructor
  · intro h
    cases u with
    | nil => rfl
    | cons y ys =>
      exfalso
      have hmem : y ∈ pyDictKeys (y :: ys) := by
        unfold pyDictKeys
        rw [List.foldl_cons]
        simp only [List.not_mem_nil, if_neg, List.nil_append]
        exact mem_pyDictKeys_foldl ys [y] y (List.mem_singleton.mpr rfl)
      rw [h] at hmem
      exact List.not_mem_nil y hmem
  · intro h; subst h; rfl

/-- Helper: the ranking has one entry per distinct universe symbol. -/
theorem chooseRanked_length (f g : ℚ → ℚ) (st : SelState α) (u : List α) :
    (chooseRanked f g st u).length = (pyDictKeys u).length := by
  unfold chooseRanked
  rw [(List.mergeSort_perm (chooseScored f g st u) scoreDesc).length_eq]
  unfold chooseScored
  rw [List.length_map]

/-- C8 (amended): with `sample` behaving like `random.sample` (succeeding
exactly when the requested size is at most the population size),
`DynamicUCBSelector.choose` fails exactly when the universe is empty and
`k ≥ 1`; whenever the scored ranking is empty it degrades to sampling `k`
symbols from the universe (appended to the static list).  A nonempty
universe smaller than `k` does NOT fail — it returns a smaller
selection. -/
theorem choose_failure_iff (f g : ℚ → ℚ) (sample : List α → ℕ → Option (List α))
    (st : SelState α) (u : List α)
    (hsample : ∀ (pop : List α) (n : ℕ), (sample pop n).isSome = true ↔ n ≤ pop.length) :
    (choose f g sample st u = none ↔ (u = [] ∧ 1 ≤ st.k)) ∧
    ((((chooseRanked f g st u).map Prod.fst).take st.k) = [] →
      choose f g sample st u =
        (sample u st.k).map
          (fun sel => (st.static ++ sel, { st with stats := chooseStats st u }))) := by
  constructor
  · rw [choose_eq]
    constructor
    · intro hn
      by_cases hc : (((chooseRanked f g st u).map Prod.fst).take st.k).isEmpty = true
      · rw [if_pos hc] at hn
        cases hsmp : sample u st.k with
        | some sel => rw [hsmp] at hn; simp at hn
        | none =>
          have hlen : ¬ (st.k ≤ u.length) := by
            intro hle
            have := (hsample u st.k).mpr hle
            rw [hsmp] at this
            simp at this
          have htopk : (((chooseRanked f g st u).map Prod.fst).take st.k) = [] :=
            List.isEmpty_iff.mp hc
          rcases List.take_eq_nil_iff.mp htopk with hk0 | hnil
          · exfalso; exact hlen (hk0 ▸ Nat.zero_le _)
          · have hkeys : (pyDictKeys u).length = 0 := by
              have h1 : (chooseRanked f g st u).length = 0 := by
                rw [← List.length_map (chooseRanked f g st u) Prod.fst, hnil]
                rfl
              rw [← chooseRanked_length f g st u, h1]
            have hu : u = [] :=
              (pyDictKeys_eq_nil_iff u).mp (List.length_eq_zero.mp hkeys)
            refine ⟨hu, ?_⟩
            subst hu
            simpa using Nat.lt_of_not_le hlen
      · rw [if_neg hc] at hn
        simp at hn
    · rintro ⟨hu, hk⟩
      subst hu
      have hranked : chooseRanked f g st ([] : List α) = [] := by
        have h0 := chooseRanked_length f g st ([] : List α)
        rw [show pyDictKeys ([] : List α) = [] from rfl] at h0
        exact List.length_eq_zero.mp (by simpa using h0)
      rw [hranked]
      simp only [List.map_nil, List.take_nil, List.isEmpty_nil, if_pos]
      have hnone : sample ([] : List α) st.k = none := by
        cases hsmp : sample ([] : List α) st.k with
        | none => rfl
        | some sel =>
          have := (hsample ([] : List α) st.k).mp (by rw [hsmp]; rfl)
          simp at this
          omega
      rw [hnone]
  · intro htopk
    rw [choose_eq]
    rw [htopk]
    simp only [List.isEmpty_nil, if_pos]
    cases hsmp : sample u st.k with
    | none => rfl
    | some sel => rfl

end Selector

namespace Selector

variable {α : Type} [DecidableEq α]

/-- Helper: membership in a prefix bounds the first-occurrence index. -/
theorem indexOf_lt_of_mem_take : ∀ (l : List α) (k : ℕ) (a : α),
    a ∈ l.take k → l.indexOf a < k := by
  intro l
  induction l with
  | nil => intro k a h; simp at h
  | cons x xs ih =>
    intro k a h
    cases k with
    | zero => simp at h
    | succ k2 =>
      rw [List.take_succ_cons] at h
      rcases List.mem_cons.mp h with hax | htail
      · subst hax
        simp [List.indexOf_cons]
      · by_cases hx : x = a
        · simp [List.indexOf_cons, hx]
        · rw [List.indexOf_cons]
          have hb : (x == a) = false := beq_eq_false_iff_ne.mpr hx
          rw [hb]
          simpa using ih k2 a htail

/-- Helper: a small first-occurrence index gives membership in the prefix. -/
theorem mem_take_of_indexOf_lt : ∀ (l : List α) (k : ℕ) (a : α),
    a ∈ l → l.indexOf a < k → a ∈ l.take k := by
  intro l
  induction l with
  | nil => intro k a h; simp at h
  | cons x xs ih =>
    intro k a hmem hlt
    by_cases hx : x = a
    · subst hx
      cases k with
      | zero => simp [List.indexOf_cons] at hlt
      | succ k2 => rw [List.take_succ_cons]; exact List.mem_cons_self _ _
    · have hb : (x == a) = false := beq_eq_false_iff_ne.mpr hx
      rw [List.indexOf_cons, hb] at hlt
      simp only [cond_false] at hlt
      cases k with
      | zero => omega
      | succ k2 =>
        rw [List.take_succ_cons]
        refine List.mem_cons_of_mem _ ?_
        have htail : a ∈ xs := by
          rcases List.mem_cons.mp hmem with h1 | h1
          · exact absurd h1.symm hx
          · exact h1
        exact ih k2 a htail (by omega)

/-- Helper: the descending score comparator is transitive. -/
theorem scoreDesc_trans {β : Type} (a b c : β × WithTop ℚ) :
    scoreDesc a b = true → scoreDesc b c = true → scoreDesc a c = true := by
  unfold scoreDesc
  simp only [decide_eq_true_eq]
  exact fun h1 h2 => le_trans h2 h1

/-- Helper: the descending score comparator is total. -/
theorem scoreDesc_total {β : Type} (a b : β × WithTop ℚ) :
    (scoreDesc a b || scoreDesc b a) = true := by
  unfold scoreDesc
  rcases le_total b.2 a.2 with h | h <;> simp [h]

/-- Helper: sorting permutes the scored list. -/
theorem mem_chooseRanked_iff (f g : ℚ → ℚ) (st : SelState α) (u : List α)
    (e : α × WithTop ℚ) :
    e ∈ chooseRanked f g st u ↔ e ∈ chooseScored f g st u := by
  exact (List.mergeSort_perm (chooseScored f g st u) scoreDesc).mem_iff

/-- Helper: every ranking entry carries the UCB score of its symbol. -/
theorem chooseRanked_snd (f g : ℚ → ℚ) (st : SelState α) (u : List α)
    (e : α × WithTop ℚ) (he : e ∈ chooseRanked f g st u) :
    e.2 = ucbScore f g st.N_total (getArm (chooseStats st u) e.1) ∧
    e.1 ∈ pyDictKeys u := by
  have h2 := (mem_chooseRanked_iff f g st u e).mp he
  unfold chooseScored at h2
  obtain ⟨p, hp, hpe⟩ := List.mem_map.mp h2
  cases hpe
  exact ⟨rfl, hp⟩

/-- Helper: every distinct universe symbol appears in the ranking with its
UCB score. -/
theorem key_mem_chooseRanked (f g : ℚ → ℚ) (st : SelState α) (u : List α)
    (p : α) (hp : p ∈ pyDictKeys u) :
    (p, ucbScore f g st.N_total (getArm (chooseStats st u) p)) ∈ chooseRanked f g st u := by
  rw [mem_chooseRanked_iff]
  unfold chooseScored
  exact List.mem_map.mpr ⟨p, hp, rfl⟩

/-- Helper: the ranking is sorted in descending score order. -/
theorem chooseRanked_pairwise (f g : ℚ → ℚ) (st : SelState α) (u : List α) :
    List.Pairwise (fun a b => scoreDesc a b = true) (chooseRanked f g st u) :=
  List.sorted_mergeSort scoreDesc_trans scoreDesc_total (chooseScored f g st u)

end Selector

namespace Selector

variable {α : Type} [DecidableEq α]

/-- C7: in `DynamicUCBSelector.choose`, every universe symbol whose arm
has count 0 receives score `+∞` (`⊤`), every sampled symbol receives the
finite score `reward/N + sqrt(2·log(N_total)/N)` (with the transcendental
kernels abstract), an unsampled symbol is ranked strictly ahead of every
sampled one and is selected into the top-k whenever the sampled one is;
the returned list is the static list concatenated (without
deduplication) with the top-k of the ranking. -/
theorem choose_ucb_ranking (f g : ℚ → ℚ) (sample : List α → ℕ → Option (List α))
    (st : SelState α) (u : List α) (p q : α)
    (hp : p ∈ pyDictKeys u) (hq : q ∈ pyDictKeys u)
    (hp0 : (getArm st.stats p).N = 0) (hq0 : (getArm st.stats q).N ≠ 0)
    (hk : 1 ≤ st.k) :
    ucbScore f g st.N_total (getArm (chooseStats st u) p) = ⊤ ∧
    ucbScore f g st.N_total (getArm (chooseStats st u) q) =
      (((getArm st.stats q).reward / ((getArm st.stats q).N : ℚ) +
        f (2 * g ((st.N_total : ℚ)) / ((getArm st.stats q).N : ℚ)) : ℚ) : WithTop ℚ) ∧
    ((chooseRanked f g st u).map Prod.fst).indexOf p <
      ((chooseRanked f g st u).map Prod.fst).indexOf q ∧
    (q ∈ (((chooseRanked f g st u).map Prod.fst).take st.k) →
      p ∈ (((chooseRanked f g st u).map Prod.fst).take st.k)) ∧
    choose f g sample st u =
      some (st.static ++ (((chooseRanked f g st u).map Prod.fst).take st.k),
            { st with stats := chooseStats st u }) := by
  have hgp : getArm (chooseStats st u) p = getArm st.stats p := getArm_chooseStats st.stats u p
  have hgq : getArm (chooseStats st u) q = getArm st.stats q := getArm_chooseStats st.stats u q
  have hscorep : ucbScore f g st.N_total (getArm (chooseStats st u) p) = ⊤ := by
    rw [hgp]
    unfold ucbScore
    rw [if_pos hp0]
  have hscoreq : ucbScore f g st.N_total (getArm (chooseStats st u) q) =
      (((getArm st.stats q).reward / ((getArm st.stats q).N : ℚ) +
        f (2 * g ((st.N_total : ℚ)) / ((getArm st.stats q).N : ℚ)) : ℚ) : WithTop ℚ) := by
    rw [hgq]
    unfold ucbScore
    rw [if_neg hq0]
  have hpq : p ≠ q := by
    intro h
    rw [h] at hp0
    exact hq0 hp0
  -- membership of the two symbols in the ranking
  have hpr := key_mem_chooseRanked f g st u p hp
  have hqr := key_mem_chooseRanked f g st u q hq
  have hpS : p ∈ (chooseRanked f g st u).map Prod.fst :=
    List.mem_map.mpr ⟨_, hpr, rfl⟩
  have hqS : q ∈ (chooseRanked f g st u).map Prod.fst :=
    List.mem_map.mpr ⟨_, hqr, rfl⟩
  have hip := List.indexOf_lt_length.mpr hpS
  have hiq := List.indexOf_lt_length.mpr hqS
  -- the entry at the index of a symbol carries that symbol's score
  have hentry : ∀ (x : α) (hx : ((chooseRanked f g st u).map Prod.fst).indexOf x <
      ((chooseRanked f g st u).map Prod.fst).length),
      ∃ hx2 : ((chooseRanked f g st u).map Prod.fst).indexOf x < (chooseRanked f g st u).length,
      (chooseRanked f g st u).get ⟨((chooseRanked f g st u).map Prod.fst).indexOf x, hx2⟩ =
        (x, ucbScore f g st.N_total (getArm (chooseStats st u) x)) := by
    intro x hx
    have hx2 : ((chooseRanked f g st u).map Prod.fst).indexOf x < (chooseRanked f g st u).length := by
      rw [← List.length_map (chooseRanked f g st u) Prod.fst]
      exact hx
    refine ⟨hx2, ?_⟩
    have hfst : ((chooseRanked f g st u).get
        ⟨((chooseRanked f g st u).map Prod.fst).indexOf x, hx2⟩).1 = x := by
      have h9 := List.indexOf_get hx
      rw [List.get_eq_getElem, List.getElem_map] at h9
      rw [List.get_eq_getElem]
      exact h9
    have hmem : (chooseRanked f g st u).get
        ⟨((chooseRanked f g st u).map Prod.fst).indexOf x, hx2⟩ ∈ chooseRanked f g st u :=
      List.get_mem _ _ _
    have hsnd := (chooseRanked_snd f g st u _ hmem).1
    rw [hfst] at hsnd
    exact Prod.ext hfst hsnd
  obtain ⟨hip2, hgetp⟩ := hentry p hip
  obtain ⟨hiq2, hgetq⟩ := hentry q hiq
  -- index ordering
  have hlt : ((chooseRanked f g st u).map Prod.fst).indexOf p <
      ((chooseRanked f g st u).map Prod.fst).indexOf q := by
    rcases Nat.lt_trichotomy (((chooseRanked f g st u).map Prod.fst).indexOf p)
      (((chooseRanked f g st u).map Prod.fst).indexOf q) with h | h | h
    · exact h
    · exfalso
      have hfin : (⟨((chooseRanked f g st u).map Prod.fst).indexOf p, hip2⟩ :
          Fin (chooseRanked f g st u).length) = ⟨((chooseRanked f g st u).map Prod.fst).indexOf q, hiq2⟩ := by
        apply Fin.ext
        exact h
      have hpqeq : ((p : α), ucbScore f g st.N_total (getArm (chooseStats st u) p)) =
          (q, ucbScore f g st.N_total (getArm (chooseStats st u) q)) := by
        rw [← hgetp, ← hgetq, hfin]
      have hfst := congrArg Prod.fst hpqeq
      simp only at hfst
      exact hpq hfst
    · exfalso
      have hpair := (List.pairwise_iff_getElem.mp (chooseRanked_pairwise f g st u))
        (((chooseRanked f g st u).map Prod.fst).indexOf q)
        (((chooseRanked f g st u).map Prod.fst).indexOf p) hiq2 hip2 h
      rw [show (chooseRanked f g st u)[((chooseRanked f g st u).map Prod.fst).indexOf q] =
        (chooseRanked f g st u).get ⟨_, hiq2⟩ from rfl] at hpair
      rw [show (chooseRanked f g st u)[((chooseRanked f g st u).map Prod.fst).indexOf p] =
        (chooseRanked f g st u).get ⟨_, hip2⟩ from rfl] at hpair
      rw [hgetp, hgetq] at hpair
      unfold scoreDesc at hpair
      simp only [decide_eq_true_eq] at hpair
      rw [hscorep, hscoreq] at hpair
      exact WithTop.coe_ne_top (top_le_iff.mp hpair)
  refine ⟨hscorep, hscoreq, hlt, ?_, ?_⟩
  · intro hqt
    have hiqk := indexOf_lt_of_mem_take _ _ _ hqt
    exact mem_take_of_indexOf_lt _ _ _ hpS (lt_trans hlt hiqk)
  · rw [choose_eq]
    have hne : (((chooseRanked f g st u).map Prod.fst).take st.k) ≠ [] := by
      intro hnil
      rcases List.take_eq_nil_iff.mp hnil with hk0 | hSnil
      · omega
      · rw [hSnil] at hpS
        exact List.not_mem_nil p hpS
    have hcond : (((chooseRanked f g st u).map Prod.fst).take st.k).isEmpty ≠ true := by
      intro hh
      exact hne (List.isEmpty_iff.mp hh)
    rw [if_neg hcond]

end Selector

namespace Selector

/-- C7 witness: the ranking property applied to a concrete selector with
one sampled and one unsampled symbol. -/
theorem choose_ucb_ranking_witness :
    ((9 : ℕ) ∈ pyDictKeys [9, 7]) ∧ ((7 : ℕ) ∈ pyDictKeys [9, 7]) ∧
    (getArm ([(7, ⟨1, 3⟩)] : List (ℕ × Arm)) 9).N = 0 ∧
    (getArm ([(7, ⟨1, 3⟩)] : List (ℕ × Arm)) 7).N ≠ 0 ∧
    1 ≤ ({ k := 1, static := [5], N_total := 3, stats := [(7, ⟨1, 3⟩)] } : SelState ℕ).k ∧
    (ucbScore (fun _ => 0) (fun _ => 0)
        ({ k := 1, static := [5], N_total := 3, stats := [(7, ⟨1, 3⟩)] } : SelState ℕ).N_total
        (getArm (chooseStats ({ k := 1, static := [5], N_total := 3, stats := [(7, ⟨1, 3⟩)] } : SelState ℕ) [9, 7]) 9) = ⊤ ∧
      ucbScore (fun _ => 0) (fun _ => 0)
        ({ k := 1, static := [5], N_total := 3, stats := [(7, ⟨1, 3⟩)] } : SelState ℕ).N_total
        (getArm (chooseStats ({ k := 1, static := [5], N_total := 3, stats := [(7, ⟨1, 3⟩)] } : SelState ℕ) [9, 7]) 7) =
        (((getArm ([(7, ⟨1, 3⟩)] : List (ℕ × Arm)) 7).reward / ((getArm ([(7, ⟨1, 3⟩)] : List (ℕ × Arm)) 7).N : ℚ) +
          (fun (_ : ℚ) => (0:ℚ)) (2 * (fun (_ : ℚ) => (0:ℚ)) ((({ k := 1, static := [5], N_total := 3, stats := [(7, ⟨1, 3⟩)] } : SelState ℕ).N_total : ℚ)) / ((getArm ([(7, ⟨1, 3⟩)] : List (ℕ × Arm)) 7).N : ℚ)) : ℚ) : WithTop ℚ) ∧
      ((chooseRanked (fun _ => 0) (fun _ => 0) ({ k := 1, static := [5], N_total := 3, stats := [(7, ⟨1, 3⟩)] } : SelState ℕ) [9, 7]).map Prod.fst).indexOf 9 <
        ((chooseRanked (fun _ => 0) (fun _ => 0) ({ k := 1, static := [5], N_total := 3, stats := [(7, ⟨1, 3⟩)] } : SelState ℕ) [9, 7]).map Prod.fst).indexOf 7 ∧
      ((7 : ℕ) ∈ (((chooseRanked (fun _ => 0) (fun _ => 0) ({ k := 1, static := [5], N_total := 3, stats := [(7, ⟨1, 3⟩)] } : SelState ℕ) [9, 7]).map Prod.fst).take 1) →
        (9 : ℕ) ∈ (((chooseRanked (fun _ => 0) (fun _ => 0) ({ k := 1, static := [5], N_total := 3, stats := [(7, ⟨1, 3⟩)] } : SelState ℕ) [9, 7]).map Prod.fst).take 1)) ∧
      choose (fun _ => 0) (fun _ => 0) (fun _ _ => none)
          ({ k := 1, static := [5], N_total := 3, stats := [(7, ⟨1, 3⟩)] } : SelState ℕ) [9, 7] =
        some ([5] ++ (((chooseRanked (fun _ => 0) (fun _ => 0) ({ k := 1, static := [5], N_total := 3, stats := [(7, ⟨1, 3⟩)] } : SelState ℕ) [9, 7]).map Prod.fst).take 1),
              { k := 1, static := [5], N_total := 3,
                stats := chooseStats ({ k := 1, static := [5], N_total := 3, stats := [(7, ⟨1, 3⟩)] } : SelState ℕ) [9, 7] })) := by
  have hp : (9 : ℕ) ∈ pyDictKeys [9, 7] := by
    simp [pyDictKeys]
  have hq : (7 : ℕ) ∈ pyDictKeys [9, 7] := by
    simp [pyDictKeys]
  have hp0 : (getArm ([(7, ⟨1, 3⟩)] : List (ℕ × Arm)) 9).N = 0 := by
    simp [getArm, List.find?]
  have hq0 : (getArm ([(7, ⟨1, 3⟩)] : List (ℕ × Arm)) 7).N ≠ 0 := by
    simp [getArm, List.find?]
  have hk : 1 ≤ ({ k := 1, static := [5], N_total := 3, stats := [(7, ⟨1, 3⟩)] } : SelState ℕ).k :=
    le_refl 1
  exact ⟨hp, hq, hp0, hq0, hk,
    choose_ucb_ranking (fun _ => 0) (fun _ => 0) (fun _ _ => none)
      ({ k := 1, static := [5], N_total := 3, stats := [(7, ⟨1, 3⟩)] } : SelState ℕ) [9, 7]
      9 7 hp hq hp0 hq0 hk⟩

end Selector

namespace Selector

/-- C8 counterexample: a universe with a single symbol and `k = 2` does
not fail — `choose` succeeds and returns a selection smaller than `k`,
contradicting the claim that a universe with fewer than `k` members
surfaces a fault. -/
theorem choose_small_universe_counterexample :
    choose (fun _ => (0:ℚ)) (fun _ => (0:ℚ))
        (fun (pop : List ℕ) n => if n ≤ pop.length then some (pop.take n) else none)
        (freshState 2 ([] : List ℕ)) [0] =
      some ([0], { k := 2, static := [], N_total := 0, stats := [(0, ⟨0, 0⟩)] }) ∧
    ([0] : List ℕ).length < (freshState 2 ([] : List ℕ)).k := by
  constructor
  · simp [choose, chooseRanked, chooseScored, pyDictKeys, chooseStats, ensureArm, getArm,
      ucbScore, freshState, List.find?]
  · simp [freshState]

/-- C8 witness: the amended failure characterisation applied to a concrete
`random.sample` model, an empty universe and `k = 1`. -/
theorem choose_failure_iff_witness :
    (∀ (pop : List ℕ) (n : ℕ),
      ((fun (pop2 : List ℕ) (n2 : ℕ) => if n2 ≤ pop2.length then some (pop2.take n2) else none) pop n).isSome = true ↔
        n ≤ pop.length) ∧
    ((choose (fun _ => (0:ℚ)) (fun _ => (0:ℚ))
        (fun (pop2 : List ℕ) (n2 : ℕ) => if n2 ≤ pop2.length then some (pop2.take n2) else none)
        (freshState 1 ([] : List ℕ)) [] = none) ↔ (([] : List ℕ) = [] ∧ 1 ≤ (freshState 1 ([] : List ℕ)).k)) ∧
    ((((chooseRanked (fun _ => (0:ℚ)) (fun _ => (0:ℚ)) (freshState 1 ([] : List ℕ)) ([] : List ℕ)).map Prod.fst).take (freshState 1 ([] : List ℕ)).k) = [] →
      choose (fun _ => (0:ℚ)) (fun _ => (0:ℚ))
          (fun (pop2 : List ℕ) (n2 : ℕ) => if n2 ≤ pop2.length then some (pop2.take n2) else none)
          (freshState 1 ([] : List ℕ)) [] =
        ((fun (pop2 : List ℕ) (n2 : ℕ) => if n2 ≤ pop2.length then some (pop2.take n2) else none) [] (freshState 1 ([] : List ℕ)).k).map
          (fun sel => ((freshState 1 ([] : List ℕ)).static ++ sel,
            { k := 1, static := [], N_total := 0,
              stats := chooseStats (freshState 1 ([] : List ℕ)) [] }))) := by
  have hs : ∀ (pop : List ℕ) (n : ℕ),
      ((fun (pop2 : List ℕ) (n2 : ℕ) => if n2 ≤ pop2.length then some (pop2.take n2) else none) pop n).isSome = true ↔
        n ≤ pop.length := by
    intro pop n
    by_cases h : n ≤ pop.length
    · simp [h]
    · simp [h]
  exact ⟨hs, choose_failure_iff _ _ _ _ _ hs⟩

end Selector
